import Mathlib

/-!
Shallow embedding of the scie-grammar tokenization engine
(src/scie-grammar/src/grammar/grammar.rs) together with the data model it
operates on.  The engine code (tokenize, tokenize_string, handle_captures,
check_while_conditions, match_rule, tokenize_line) is transcribed from the
Rust source.  The collaborating data structures that are not part of the
given sources (StackElement, ScopeListElement, LineTokens, the rule nodes
and the regex scanner) are modelled from the specification; each such
definition carries a doc comment saying so.  The regex scanner is an
external collaborator (spec section 1/6): it is modelled as an oracle
function supplied as a parameter.
-/

namespace Scie

/-- Result type used to embed the Rust control flow: a normal return, a
Rust panic (index out of bounds, unwrap on None, an explicit panic call),
or exhaustion of the fuel that drives the otherwise unbounded main loop
and the recursion through capture retokenization. -/
inductive Res (α : Type) where
  | ok (a : α)
  | error (msg : String)
  | outOfFuel
deriving Repr, DecidableEq

/-- Bind for the Res embedding monad. -/
def Res.bind {α β : Type} : Res α → (α → Res β) → Res β
  | .ok a, f => f a
  | .error m, _ => .error m
  | .outOfFuel, _ => .outOfFuel

instance : Monad Res where
  pure := Res.ok
  bind := Res.bind

/-- Indexing into a list, embedding the Rust `v[i]` which panics when the
index is out of bounds. -/
def listGet {α : Type} (l : List α) (i : Nat) : Res α :=
  match l[i]? with
  | some a => .ok a
  | none => .error "index out of bounds"

/-- Embedding of Rust Option::unwrap. -/
def optGet {α : Type} : Option α → Res α
  | some a => .ok a
  | none => .error "called unwrap on a None value"

/-- One capture reported by the scanner (scie-scanner IOnigCaptureIndex):
byte offsets of a capture group.  The field `end` of the Rust struct is
called `endPos` here because `end` is a Lean keyword. -/
structure IOnigCaptureIndex where
  start : Nat
  endPos : Nat
  length : Nat
deriving Repr, DecidableEq

/-- Result of Grammar::match_rule (grammar.rs line 580): the captures of the
winning alternative and the rule id tagged on that alternative. -/
structure MatchRuleResult where
  capture_indices : List IOnigCaptureIndex
  matched_rule_id : Int
deriving Repr, DecidableEq

/-- One emitted token (grammar/line_tokens.rs IToken, spec section 3):
half-open range with the flattened scope list at emission time. -/
structure IToken where
  start_index : Int
  end_index : Int
  scopes : List String
deriving Repr, DecidableEq

/-- Modelled from the spec (section 4.4): ScopeListElement, an immutable
list of scope names ordered root to leaf; this file is missing
grammar/scope_list_element.rs.  Pushing None leaves the list unchanged, so
the list stores only present names. -/
structure ScopeListElement where
  scopes : List String
deriving Repr, DecidableEq

/-- Modelled from the spec (section 4.4): push an optional scope name; a
None leaves the list unchanged. -/
def ScopeListElement.push (s : ScopeListElement) (name : Option String) : ScopeListElement :=
  match name with
  | none => s
  | some n => ⟨s.scopes ++ [n]⟩

/-- One stack frame's data (spec section 3, Stack Element): rule id, entry
position, anchor position, captured-EOL flag, optional resolved end
pattern, and the two scope lists. -/
structure Frame where
  rule_id : Int
  enter_pos : Int
  anchor_pos : Int
  begin_rule_captured_eol : Bool
  end_rule : Option String
  name_scopes_list : ScopeListElement
  content_name_scopes_list : ScopeListElement
deriving Repr, DecidableEq

/-- Modelled from the spec (sections 3 and 4.5): StackElement, a persistent
non-empty list of frames; this file is missing
grammar/stack_element.rs.  `single` is a stack of one frame (no parent),
`cons` places a new top frame over a parent stack. -/
inductive StackElement where
  | single (f : Frame)
  | cons (f : Frame) (parent : StackElement)
deriving Repr, DecidableEq

/-- Top frame of a stack. -/
def StackElement.frame : StackElement → Frame
  | .single f => f
  | .cons f _ => f

/-- Modelled from the spec (section 4.5): pop returns the parent, or None
at the root. -/
def StackElement.pop : StackElement → Option StackElement
  | .single _ => none
  | .cons _ p => some p

/-- Modelled from the spec (section 4.5): push returns a new frame whose
parent is the previous top. -/
def StackElement.push (s : StackElement) (f : Frame) : StackElement :=
  .cons f s

/-- Replace the top frame. -/
def StackElement.withFrame (s : StackElement) (f : Frame) : StackElement :=
  match s with
  | .single _ => .single f
  | .cons _ p => .cons f p

def StackElement.rule_id (s : StackElement) : Int := s.frame.rule_id
def StackElement.anchor_pos (s : StackElement) : Int := s.frame.anchor_pos
def StackElement.begin_rule_captured_eol (s : StackElement) : Bool := s.frame.begin_rule_captured_eol
def StackElement.end_rule (s : StackElement) : Option String := s.frame.end_rule
def StackElement.name_scopes_list (s : StackElement) : ScopeListElement := s.frame.name_scopes_list
def StackElement.content_name_scopes_list (s : StackElement) : ScopeListElement := s.frame.content_name_scopes_list

/-- Modelled from the spec (section 4.5): clone the top frame replacing its
content-scope list. -/
def StackElement.set_content_name_scopes_list (s : StackElement) (l : ScopeListElement) : StackElement :=
  s.withFrame { s.frame with content_name_scopes_list := l }

/-- Modelled from the spec (section 4.5): clone the top frame storing a
resolved end pattern string. -/
def StackElement.set_end_rule (s : StackElement) (e : String) : StackElement :=
  s.withFrame { s.frame with end_rule := some e }

/-- Modelled from the spec (section 4.5): reset transient fields
(enter_pos, anchor_pos) on the top frame to the sentinel -1 at the start
of a new line. -/
def StackElement.reset (s : StackElement) : StackElement :=
  s.withFrame { s.frame with enter_pos := -1, anchor_pos := -1 }

/-- Modelled from the spec (section 3): the singleton null sentinel stack
returned by StackElement::null(); a previous stack equal to it restarts
tokenization from the root. -/
def StackElement.nullStack : StackElement :=
  .single ⟨0, 0, 0, false, none, ⟨[]⟩, ⟨[]⟩⟩

/-- Modelled from the spec (section 4.7.4): one entry of the local stack
kept by handle_captures (grammar/local_stack_element.rs is not among the
given sources): a scope list paired with the position where it ends. -/
structure LocalStackElement where
  scopes : ScopeListElement
  end_pos : Int
deriving Repr, DecidableEq

/-- Modelled from the spec (sections 3 and 4.3): the compiled rule nodes
(the rule/ sources other than abstract_rule.rs are not among the given
files).  Tagged variants carrying exactly the data the engine in
grammar.rs reads from them: names, per-capture rule lists, the
back-reference flag and end source of a BeginEndRule, and the
retokenization target of a CaptureRule. -/
inductive Rule where
  | IncludeOnlyRule (name : Option String) (content_name : Option String)
  | MatchRule (name : Option String) (captures : List Rule)
  | BeginEndRule (name : Option String) (content_name : Option String)
      (begin_captures : List Rule) (end_captures : List Rule)
      (end_has_back_references : Bool) (end_source : String)
  | BeginWhileRule (name : Option String) (content_name : Option String)
      (begin_captures : List Rule) (while_captures : List Rule)
  | CaptureRule (name : Option String) (content_name : Option String)
      (retokenize_captured_with_rule_id : Int)
  | EmptyRule
deriving Repr

/-- Raw name attribute of a rule. -/
def Rule.rawName : Rule → Option String
  | .IncludeOnlyRule n _ => n
  | .MatchRule n _ => n
  | .BeginEndRule n _ _ _ _ _ => n
  | .BeginWhileRule n _ _ _ => n
  | .CaptureRule n _ _ => n
  | .EmptyRule => none

/-- Raw content_name attribute of a rule. -/
def Rule.rawContentName : Rule → Option String
  | .IncludeOnlyRule _ c => c
  | .BeginEndRule _ c _ _ _ _ => c
  | .BeginWhileRule _ c _ _ => c
  | .CaptureRule _ c _ => c
  | _ => none

/-- Whether the rule is a BeginEndRule (the engine's check of the `_type`
tag at grammar.rs line 229). -/
def Rule.isBeginEnd : Rule → Bool
  | .BeginEndRule _ _ _ _ _ _ => true
  | _ => false

/-- Whether the rule is a BeginWhileRule (the `_type` check at grammar.rs
line 492). -/
def Rule.isBeginWhile : Rule → Bool
  | .BeginWhileRule _ _ _ _ => true
  | _ => false

/-- While-capture list of a rule: the while_captures field of a
BeginWhileRule, empty for every other kind (check_while_conditions only
reads it off collected BeginWhileRule entries). -/
def Rule.whileCaptures : Rule → List Rule
  | .BeginWhileRule _ _ _ wc => wc
  | _ => []

/-- Literal text of capture group n of the triggering match; absent
captures yield empty text (spec section 4.3). -/
def captureText (line : List Char) (cis : List IOnigCaptureIndex) (n : Nat) : List Char :=
  match cis.get? n with
  | some ci => (line.drop ci.start).take (ci.endPos - ci.start)
  | none => []

/-- Numeric value of a run of decimal digits. -/
def digitsToNat (ds : List Char) : Nat :=
  ds.foldl (fun a c => a * 10 + (c.toNat - '0'.toNat)) 0

/-- Recursion worker for substCaptures, structurally recursive on a fuel
bound (the length of the processed list, which shrinks by at least one per
step). -/
def substGo (line : List Char) (cis : List IOnigCaptureIndex) : Nat → List Char → List Char
  | 0, l => l
  | _ + 1, [] => []
  | f + 1, '$' :: rest =>
      let ds := rest.takeWhile Char.isDigit
      if ds.isEmpty then '$' :: substGo line cis f rest
      else captureText line cis (digitsToNat ds) ++ substGo line cis f (rest.drop ds.length)
  | f + 1, c :: rest => c :: substGo line cis f rest

/-- Modelled from the spec (section 4.3): substitute dollar-N tokens in a
name with the literal text of the N-th capture of the triggering match. -/
def substCaptures (line : List Char) (cis : List IOnigCaptureIndex) (l : List Char) : List Char :=
  substGo line cis l.length l

/-- Modelled from the spec (section 4.3): get_name substitutes capture text
into the rule's name when a line and captures are supplied; with no
captures the raw name is returned. -/
def Rule.get_name (r : Rule) (line : Option (List Char))
    (cis : Option (List IOnigCaptureIndex)) : Option String :=
  match r.rawName, line, cis with
  | some n, some l, some c => some (String.mk (substCaptures l c n.toList))
  | some n, _, _ => some n
  | none, _, _ => none

/-- Modelled from the spec (section 4.3): get_content_name is get_name for
the content_name attribute. -/
def Rule.get_content_name (r : Rule) (line : Option (List Char))
    (cis : Option (List IOnigCaptureIndex)) : Option String :=
  match r.rawContentName, line, cis with
  | some n, some l, some c => some (String.mk (substCaptures l c n.toList))
  | some n, _, _ => some n
  | none, _, _ => none

/-- Modelled from the spec (section 9, End pattern back-references):
substitute backslash-N references in the retained end source with the
captured text (get_end_with_resolved_back_references); the regex escaping
the spec mentions is irrelevant here because the resolved string is only
stored on the frame and handed back to the scanner oracle. -/
def resolveBackReferences (line : List Char) (cis : List IOnigCaptureIndex) : List Char → List Char
  | [] => []
  | '\\' :: d :: rest =>
      if d.isDigit then captureText line cis (d.toNat - '0'.toNat) ++ resolveBackReferences line cis rest
      else '\\' :: d :: resolveBackReferences line cis rest
  | c :: rest => c :: resolveBackReferences line cis rest

/-- Modelled from the spec (section 4.6): the line tokens builder
(grammar/line_tokens.rs is not among the given sources): the accumulated
tokens and the end of the last produced token. -/
structure LineTokens where
  tokens : List IToken
  last_token_end_index : Int
deriving Repr, DecidableEq

/-- Fresh builder for one line. -/
def LineTokens.new : LineTokens := ⟨[], 0⟩

/-- Modelled from the spec (section 4.6): emit a token spanning from the
last produced position to end_offset with an explicit scope list;
zero-width (and non-advancing) emissions are dropped. -/
def LineTokens.produce_from_scopes (lt : LineTokens) (scopes : ScopeListElement) (endIndex : Int) : LineTokens :=
  if endIndex ≤ lt.last_token_end_index then lt
  else ⟨lt.tokens ++ [⟨lt.last_token_end_index, endIndex, scopes.scopes⟩], endIndex⟩

/-- Modelled from the spec (section 4.6): produce emits using the flattened
scopes of the top frame's content-scope list. -/
def LineTokens.produce (lt : LineTokens) (stack : StackElement) (endIndex : Int) : LineTokens :=
  lt.produce_from_scopes stack.content_name_scopes_list endIndex

/-- Modelled from the spec (section 4.6): get_result emits a final token up
to line_length using the current top-of-stack scopes and returns the
accumulated list. -/
def LineTokens.get_result (lt : LineTokens) (stack : StackElement) (lineLength : Int) : List IToken :=
  (lt.produce stack lineLength).tokens

/-- The compiled grammar as the engine sees it: the root rule id and the
rule container resolving ids to compiled rules (RuleContainer::get_rule;
rule compilation itself is outside the tokenization claims, so the
container is taken as already materialized). -/
structure Grammar where
  root_id : Int
  rules : Int → Rule

/-- The external regex scanner collaborator (spec sections 1 and 6), as the
oracle behind Grammar::match_rule and the while-pattern scan of
check_while_conditions.  find_next_match takes the line, the
is_first_line flag, the at-anchor flag (line_pos equal to
anchor_position), the start position, and the stack whose top rule's
compiled patterns are being scanned.  find_while_match additionally
identifies the BeginWhileRule frame by its rule id and resolved end rule
(the inputs of compile_while at grammar.rs line 510). -/
structure Scanner where
  find_next_match : List Char → Bool → Bool → Int → StackElement → Option MatchRuleResult
  find_while_match : List Char → Int → Option String → Bool → Bool → Int → Option MatchRuleResult

/-- Embedding of Grammar::match_rule (grammar.rs lines 564 to 590): compile
the scanner for the top-of-stack rule under the two boolean flags and scan
from line_pos. -/
def match_rule (sc : Scanner) (line_text : List Char) (is_first_line : Bool)
    (line_pos : Int) (stack : StackElement) (anchor_position : Int) : Option MatchRuleResult :=
  sc.find_next_match line_text is_first_line (line_pos == anchor_position) line_pos stack

/-- Mutable state of one iteration of the main match loop of
tokenize_string (grammar.rs lines 210 to 359): the four loop variables and
the tokens builder. -/
structure LoopState where
  is_first_line : Bool
  line_pos : Int
  anchor_position : Int
  stack : StackElement
  lt : LineTokens
deriving Repr, DecidableEq

/-- Outcome of one iteration of the main match loop: either the loop stops
returning the engine's Option result and the builder, or it continues with
an updated state. -/
inductive IterResult where
  | stop (ret : Option StackElement) (lt : LineTokens)
  | next (s : LoopState)
deriving Repr, DecidableEq

/-- Embedding of the Rust cast `as usize` applied to an i32: a negative
value wraps around 2 to the 64. -/
def asUsize (i : Int) : Nat := (i % (2 : Int) ^ 64).toNat

/-- Embedding of the advancement step at the end of each main-loop
iteration (grammar.rs lines 355 to 358): if the whole match ends past
line_pos, advance line_pos and clear is_first_line. -/
def advance (s : LoopState) (ci0 : IOnigCaptureIndex) : LoopState :=
  if ci0.endPos > asUsize s.line_pos then
    { s with line_pos := (ci0.endPos : Int), is_first_line := false }
  else s

/-- Embedding of the inner while of handle_captures (grammar.rs lines 390
to 399): pop every local-stack entry ending at or before pos, emitting a
token up to its end position. -/
def drain_while (local_stack : List LocalStackElement) (lt : LineTokens) (pos : Int) :
    List LocalStackElement × LineTokens :=
  match local_stack with
  | [] => ([], lt)
  | e :: rest =>
      if e.end_pos ≤ pos then drain_while rest (lt.produce_from_scopes e.scopes e.end_pos) pos
      else (e :: rest, lt)

/-- Embedding of the final drain of handle_captures (grammar.rs lines 464
to 468): emit a token for every remaining local-stack entry, innermost
first. -/
def drain_all : List LocalStackElement → LineTokens → LineTokens
  | [], lt => lt
  | e :: rest, lt => drain_all rest (lt.produce_from_scopes e.scopes e.end_pos)

/-- Result record of check_while_conditions (grammar.rs lines 28 to 34). -/
structure CheckWhileConditionResult where
  stack : StackElement
  line_pos : Int
  anchor_position : Int
  is_first_line : Bool
deriving Repr, DecidableEq

/-- Embedding of the collection walk of check_while_conditions (grammar.rs
lines 487 to 507): walk the stack from the top frame toward the root and
record every frame whose rule is a BeginWhileRule, paired with that rule,
in encounter order (top of stack first). -/
def collect_while_rules (g : Grammar) : StackElement → List (Rule × StackElement)
  | .single f =>
      if (g.rules f.rule_id).isBeginWhile then [(g.rules f.rule_id, .single f)] else []
  | .cons f p =>
      (if (g.rules f.rule_id).isBeginWhile then [(g.rules f.rule_id, .cons f p)] else [])
        ++ collect_while_rules g p

mutual

/-- Embedding of Grammar::handle_captures (grammar.rs lines 363 to 469).
The indexed loop over 0..min(captures.len, capture_indices.len) is
represented by hc_loop over the zip of the two lists. -/
def handle_captures (g : Grammar) (sc : Scanner) (fuel : Nat) (line_text : List Char)
    (is_first_line : Bool) (stack : StackElement) (lt : LineTokens)
    (captures : List Rule) (capture_indices : List IOnigCaptureIndex) : Res LineTokens :=
  if captures.length == 0 then .ok lt
  else
    match fuel with
    | 0 => .outOfFuel
    | fuel + 1 => do
        let ci0 ← listGet capture_indices 0
        let max_end := ci0.endPos
        let r ← hc_loop g sc fuel line_text is_first_line stack lt capture_indices max_end
            (captures.zip capture_indices) []
        .ok (drain_all r.1 r.2)

/-- Embedding of the body of the capture loop of handle_captures
(grammar.rs lines 379 to 462), iterating over the remaining
(capture rule, capture index) pairs and threading the local stack and the
tokens builder. -/
def hc_loop (g : Grammar) (sc : Scanner) (fuel : Nat) (line_text : List Char)
    (is_first_line : Bool) (stack : StackElement) (lt : LineTokens)
    (capture_indices : List IOnigCaptureIndex) (max_end : Nat)
    (items : List (Rule × IOnigCaptureIndex)) (local_stack : List LocalStackElement) :
    Res (List LocalStackElement × LineTokens) :=
  match fuel with
  | 0 => .outOfFuel
  | fuel + 1 =>
    match items with
    | [] => .ok (local_stack, lt)
    | (rule, capture_index) :: rest =>
      match rule with
      | .CaptureRule _ _ retok =>
          if capture_index.length == 0 then
            hc_loop g sc fuel line_text is_first_line stack lt capture_indices max_end rest local_stack
          else if capture_index.start > max_end then
            hc_loop g sc fuel line_text is_first_line stack lt capture_indices max_end rest local_stack
          else
            let dr := drain_while local_stack lt (capture_index.start : Int)
            let lt2 :=
              match dr.1 with
              | e :: _ => dr.2.produce_from_scopes e.scopes (capture_index.start : Int)
              | [] => dr.2.produce stack (capture_index.start : Int)
            if retok != 0 then do
              let scope_name := rule.get_name (some line_text) (some capture_indices)
              let name_scopes_list := stack.content_name_scopes_list.push scope_name
              let content_name := rule.get_content_name (some line_text) (some capture_indices)
              let content_name_scopes_list := name_scopes_list.push content_name
              let stack_clone := stack.push
                ⟨retok, (capture_index.start : Int), -1, false, none,
                  name_scopes_list, content_name_scopes_list⟩
              let sub_text := line_text.take capture_index.endPos
              let sub_is_first_line := is_first_line && capture_index.start == 0
              let r ← tokenize_string g sc fuel sub_text sub_is_first_line
                  (capture_index.start : Int) stack_clone lt2 false
              hc_loop g sc fuel line_text is_first_line stack r.2 capture_indices max_end rest dr.1
            else
              let capture_scope_name := rule.get_name (some line_text) (some capture_indices)
              match capture_scope_name with
              | some _ =>
                  let base :=
                    match dr.1 with
                    | e :: _ => e.scopes
                    | [] => stack.content_name_scopes_list
                  let capture_rule_scopes_list := base.push capture_scope_name
                  hc_loop g sc fuel line_text is_first_line stack lt2 capture_indices max_end rest
                    (⟨capture_rule_scopes_list, (capture_index.endPos : Int)⟩ :: dr.1)
              | none =>
                  hc_loop g sc fuel line_text is_first_line stack lt2 capture_indices max_end rest dr.1
      | _ =>
          hc_loop g sc fuel line_text is_first_line stack lt capture_indices max_end rest local_stack

/-- Embedding of Grammar::tokenize_string (grammar.rs lines 188 to 361):
optionally run the while-condition check, then enter the main match
loop with anchor_position starting at -1 unless the check supplied one. -/
def tokenize_string (g : Grammar) (sc : Scanner) (fuel : Nat) (line_text : List Char)
    (is_first_line : Bool) (line_pos : Int) (stack : StackElement) (lt : LineTokens)
    (check_while_conditions_flag : Bool) : Res (Option StackElement × LineTokens) :=
  match fuel with
  | 0 => .outOfFuel
  | fuel + 1 =>
    let line_length := line_text.length
    if check_while_conditions_flag then do
      let r ← check_while_conditions g sc fuel line_text is_first_line line_pos stack lt
      tokenize_loop g sc fuel line_text line_length
        ⟨r.1.is_first_line, r.1.line_pos, r.1.anchor_position, r.1.stack, r.2⟩
    else
      tokenize_loop g sc fuel line_text line_length
        ⟨is_first_line, line_pos, -1, stack, lt⟩

/-- Embedding of the while loop of tokenize_string (grammar.rs lines 210 to
359) as iterated application of tokenize_iter. -/
def tokenize_loop (g : Grammar) (sc : Scanner) (fuel : Nat) (line_text : List Char)
    (line_length : Nat) (s : LoopState) : Res (Option StackElement × LineTokens) :=
  match fuel with
  | 0 => .outOfFuel
  | fuel + 1 => do
    let r ← tokenize_iter g sc fuel line_text line_length s
    match r with
    | .stop ret lt => .ok (ret, lt)
    | .next s1 => tokenize_loop g sc fuel line_text line_length s1

/-- Embedding of one iteration of the main match loop of tokenize_string
(grammar.rs lines 211 to 358): scan for the next match, dispatch on the
matched rule id (-1 pops a BeginEndRule frame) and the rule kind, emit
tokens, transition the stack, and advance. -/
def tokenize_iter (g : Grammar) (sc : Scanner) (fuel : Nat) (line_text : List Char)
    (line_length : Nat) (s : LoopState) : Res IterResult :=
  match fuel with
  | 0 => .outOfFuel
  | fuel + 1 =>
    match match_rule sc line_text s.is_first_line s.line_pos s.stack s.anchor_position with
    | none => .ok (.stop (some s.stack) (s.lt.produce s.stack (line_length : Int)))
    | some capture_result =>
      let capture_indices := capture_result.capture_indices
      let matched_rule_id := capture_result.matched_rule_id
      if matched_rule_id == -1 then
        match g.rules s.stack.rule_id with
        | .BeginEndRule _ _ _ end_captures _ _ => do
            let ci0 ← listGet capture_indices 0
            let name_scopes_list := s.stack.name_scopes_list
            let lt1 := s.lt.produce s.stack (ci0.start : Int)
            let stack1 := s.stack.set_content_name_scopes_list name_scopes_list
            let lt2 ← handle_captures g sc fuel line_text s.is_first_line stack1 lt1
                end_captures capture_indices
            let lt3 := lt2.produce stack1 (ci0.endPos : Int)
            let popped_anchor_pos := stack1.anchor_pos
            let stack2 := (stack1.pop).getD stack1
            .ok (.next (advance
              ⟨s.is_first_line, s.line_pos, popped_anchor_pos, stack2, lt3⟩ ci0))
        | _ => .ok (.stop (some s.stack) s.lt)
      else do
        let rule := g.rules matched_rule_id
        let ci0 ← listGet capture_indices 0
        let lt1 := s.lt.produce s.stack (ci0.start : Int)
        let scope_name := rule.get_name (some line_text) (some capture_indices)
        let name_scopes_list := s.stack.content_name_scopes_list.push scope_name
        let begin_rule_capture_eol := ci0.endPos == line_length
        let stack1 := s.stack.push
          ⟨matched_rule_id, s.line_pos, s.anchor_position, begin_rule_capture_eol, none,
            name_scopes_list, name_scopes_list⟩
        match rule with
        | .BeginEndRule _ _ begin_captures _ end_has_back_references end_source => do
            let lt2 ← handle_captures g sc fuel line_text s.is_first_line stack1 lt1
                begin_captures capture_indices
            let lt3 := lt2.produce stack1 (ci0.endPos : Int)
            let content_name := rule.get_content_name (some line_text) (some capture_indices)
            let stack2 := stack1.set_content_name_scopes_list (name_scopes_list.push content_name)
            let stack3 :=
              if end_has_back_references then
                stack2.set_end_rule
                  (String.mk (resolveBackReferences line_text capture_indices end_source.toList))
              else stack2
            .ok (.next (advance
              ⟨s.is_first_line, s.line_pos, (ci0.endPos : Int), stack3, lt3⟩ ci0))
        | .BeginWhileRule _ _ begin_captures _ => do
            let lt2 ← handle_captures g sc fuel line_text s.is_first_line stack1 lt1
                begin_captures capture_indices
            let lt3 := lt2.produce stack1 (ci0.endPos : Int)
            let content_name := rule.get_content_name (some line_text) (some capture_indices)
            let stack2 := stack1.set_content_name_scopes_list (name_scopes_list.push content_name)
            .ok (.next (advance
              ⟨s.is_first_line, s.line_pos, (ci0.endPos : Int), stack2, lt3⟩ ci0))
        | .MatchRule _ captures => do
            let lt2 ← handle_captures g sc fuel line_text s.is_first_line stack1 lt1
                captures capture_indices
            let lt3 := lt2.produce stack1 (ci0.endPos : Int)
            let stack2 := (stack1.pop).getD stack1
            .ok (.next (advance
              ⟨s.is_first_line, s.line_pos, s.anchor_position, stack2, lt3⟩ ci0))
        | _ => .error "todo: RuleEnum - Others"

/-- Embedding of Grammar::check_while_conditions (grammar.rs lines 475 to
562): seed the anchor from the captured-EOL flag, collect the
BeginWhileRule frames, then run the condition loop over them in
collection order. -/
def check_while_conditions (g : Grammar) (sc : Scanner) (fuel : Nat) (line_text : List Char)
    (is_first_line : Bool) (line_pos : Int) (stack : StackElement) (lt : LineTokens) :
    Res (CheckWhileConditionResult × LineTokens) :=
  match fuel with
  | 0 => .outOfFuel
  | fuel + 1 =>
    let anchor_position : Int := if stack.begin_rule_captured_eol then 0 else -1
    let while_rules := collect_while_rules g stack
    cw_loop g sc fuel line_text while_rules stack is_first_line line_pos anchor_position lt

/-- Embedding of the for loop of check_while_conditions (grammar.rs lines
509 to 554): evaluate each collected while condition; on a failed or
foreign match pop the stack to the parent of that frame and stop; on a
successful match emit tokens, handle while_captures and advance. -/
def cw_loop (g : Grammar) (sc : Scanner) (fuel : Nat) (line_text : List Char)
    (items : List (Rule × StackElement)) (stack : StackElement)
    (is_first_line : Bool) (line_pos : Int) (anchor_position : Int) (lt : LineTokens) :
    Res (CheckWhileConditionResult × LineTokens) :=
  match fuel with
  | 0 => .outOfFuel
  | fuel + 1 =>
    match items with
    | [] => .ok (⟨stack, line_pos, anchor_position, is_first_line⟩, lt)
    | (rule, frame) :: rest =>
      match sc.find_while_match line_text frame.rule_id frame.end_rule is_first_line
          (anchor_position == line_pos) line_pos with
      | none => do
          let s1 ← optGet frame.pop
          .ok (⟨s1, line_pos, anchor_position, is_first_line⟩, lt)
      | some r =>
          if r.matched_rule_id != -2 then do
            let s1 ← optGet frame.pop
            .ok (⟨s1, line_pos, anchor_position, is_first_line⟩, lt)
          else if r.capture_indices.length > 0 then do
            let ci0 ← listGet r.capture_indices 0
            let lt1 := lt.produce frame (ci0.start : Int)
            let lt2 ← handle_captures g sc fuel line_text is_first_line frame lt1
                rule.whileCaptures r.capture_indices
            let lt3 := lt2.produce frame (ci0.endPos : Int)
            if ci0.endPos > asUsize line_pos then
              cw_loop g sc fuel line_text rest stack false (ci0.endPos : Int) (ci0.endPos : Int) lt3
            else
              cw_loop g sc fuel line_text rest stack is_first_line line_pos (ci0.endPos : Int) lt3
          else
            cw_loop g sc fuel line_text rest stack is_first_line line_pos anchor_position lt

end

/-- Embedding of the initialization section of Grammar::tokenize
(grammar.rs lines 124 to 161): decide is_first_line from the previous
stack (absent or equal to the null sentinel), and either push a fresh root
frame seeded with the root rule's name (or "unknown") or reset the
inherited top frame. -/
def tokenize_init (g : Grammar) (prev_state : Option StackElement) : Bool × StackElement :=
  let is_first_line :=
    match prev_state with
    | none => true
    | some state => state == StackElement.nullStack
  let current_state :=
    match prev_state with
    | none => StackElement.nullStack
    | some state => state
  if is_first_line then
    let root_scope_name := ((g.rules g.root_id).get_name none none).getD "unknown"
    let scope_list : ScopeListElement := ⟨[root_scope_name]⟩
    (true, .single ⟨g.root_id, -1, -1, false, none, scope_list, scope_list⟩)
  else
    (false, current_state.reset)

/-- Embedding of Grammar::tokenize (grammar.rs lines 100 to 186): run the
initialization, pad the line with a newline, tokenize it, then unwrap the
resulting stack and collect the tokens via get_result with the padded
length. -/
def tokenize (g : Grammar) (sc : Scanner) (fuel : Nat) (line_text : List Char)
    (prev_state : Option StackElement) : Res (List IToken × Option StackElement) :=
  let init := tokenize_init g prev_state
  let format_line_text := line_text ++ ['\n']
  let line_tokens := LineTokens.new
  let line_length := format_line_text.length
  do
    let r ← tokenize_string g sc fuel format_line_text init.1 0 init.2 line_tokens true
    let stack ← optGet r.1
    .ok (r.2.get_result stack (line_length : Int), r.1)

/-- Embedding of Grammar::tokenize_line (grammar.rs lines 592 to 598):
tokenize with binary token emission off. -/
def tokenize_line (g : Grammar) (sc : Scanner) (fuel : Nat) (line_text : List Char)
    (prev_state : Option StackElement) : Res (List IToken × Option StackElement) :=
  tokenize g sc fuel line_text prev_state

/-- Tokenize a sequence of lines threading the returned stack from each
line into the next, as the callers of tokenize_line do (grammar.rs
from_code and the test helper get_all_tokens), collecting the per-line
token lists and the final stack. -/
def run_lines (g : Grammar) (sc : Scanner) (fuel : Nat) :
    List (List Char) → Option StackElement → Res (List (List IToken) × Option StackElement)
  | [], st => .ok ([], st)
  | l :: ls, st => do
      let r ← tokenize_line g sc fuel l st
      let rest ← run_lines g sc fuel ls r.2
      .ok (r.1 :: rest.1, rest.2)

/-- Adjacency chain over a token list: the first token starts at s, each
token is non-empty and starts where the previous one ended, and the last
token ends at e (for the empty list, s equals e). -/
def chainB (s : Int) : List IToken → Int → Bool
  | [], e => s == e
  | t :: ts, e => t.start_index == s && decide (s < t.end_index) && chainB t.end_index ts e

/-- A token list covers the interval from 0 to L with no gaps and no
overlaps: it is non-empty, starts at 0, is adjacent throughout, and ends
at L. -/
def covers (toks : List IToken) (L : Int) : Prop :=
  toks ≠ [] ∧ chainB 0 toks L = true

/-- All capture indices of a scanner response lie within bound L. -/
def BoundedCis (L : Int) (cis : List IOnigCaptureIndex) : Prop :=
  ∀ ci ∈ cis, (ci.start : Int) ≤ L ∧ (ci.endPos : Int) ≤ L

/-- A well-behaved scanner oracle: every reported capture index lies within
the scanned text (the contract of the external regex scanner, spec
section 6). -/
def BoundedScanner (sc : Scanner) : Prop :=
  (∀ txt fl aa lp st r, sc.find_next_match txt fl aa lp st = some r →
      BoundedCis (txt.length : Int) r.capture_indices) ∧
  (∀ txt rid er fl aa lp r, sc.find_while_match txt rid er fl aa lp = some r →
      BoundedCis (txt.length : Int) r.capture_indices)

/-- Builder invariant for the coverage proof: the accumulated tokens chain
from 0 to the last produced position, which lies between 0 and L. -/
def LtInv (L : Int) (lt : LineTokens) : Prop :=
  chainB 0 lt.tokens lt.last_token_end_index = true ∧
    0 ≤ lt.last_token_end_index ∧ lt.last_token_end_index ≤ L

/-- All entries of a local capture stack end within bound L. -/
def LocalsBounded (L : Int) (ls : List LocalStackElement) : Prop :=
  ∀ x ∈ ls, x.end_pos ≤ L

/-- A one-rule grammar used by the concrete runs: every id resolves to an
IncludeOnlyRule named src. -/
def gTriv : Grammar := ⟨1, fun _ => .IncludeOnlyRule (some "src") none⟩

/-- A scanner oracle that never matches. -/
def scTriv : Scanner := ⟨fun _ _ _ _ _ => none, fun _ _ _ _ _ _ => none⟩

/-- The root frame produced by tokenize_init over gTriv. -/
def frameTriv : Frame := ⟨1, -1, -1, false, none, ⟨["src"]⟩, ⟨["src"]⟩⟩

/-- Witness for tokenize_loop_end_sentinel_foreign_rule: a scanner that
reports the end sentinel over an IncludeOnlyRule top frame. -/
def scEnd : Scanner := ⟨fun _ _ _ _ _ => some ⟨[], -1⟩, fun _ _ _ _ _ _ => none⟩

/-- Loop state used by the concrete end-sentinel run. -/
def sTriv : LoopState := ⟨false, 0, -1, .single frameTriv, LineTokens.new⟩

/-- Grammar for the MatchRule anchor counterexample: rule id 2 is a
MatchRule with no name and no captures. -/
def gC4 : Grammar :=
  ⟨1, fun i => if i == 2 then .MatchRule none [] else .IncludeOnlyRule (some "src") none⟩

/-- Scanner for the MatchRule anchor counterexample: always reports a
MatchRule match spanning offsets 3 to 5. -/
def scC4 : Scanner := ⟨fun _ _ _ _ _ => some ⟨[⟨3, 5, 2⟩], 2⟩, fun _ _ _ _ _ _ => none⟩

/-- Line used by the MatchRule anchor counterexample. -/
def txtC4 : List Char := ['a', 'b', 'c', 'd', 'e', '\n']

/-- Builder contents after the concrete MatchRule iteration. -/
def ltC4 : LineTokens := ⟨[⟨0, 3, ["src"]⟩, ⟨3, 5, ["src"]⟩], 5⟩

/-- Loop state after the concrete MatchRule iteration: the anchor position
is still -1 even though the match ended at 5. -/
def sC4next : LoopState := ⟨false, 5, -1, .single frameTriv, ltC4⟩

/-- Top frame for the end-pop counterexample: a BeginEndRule frame whose
name scopes and content scopes differ and whose stored anchor is 2. -/
def frameC5 : Frame := ⟨7, -1, 2, false, none, ⟨["A", "NAME"]⟩, ⟨["A", "CONT"]⟩⟩

/-- Stack for the end-pop counterexample. -/
def stackC5 : StackElement := .cons frameC5 (.single frameTriv)

/-- The same stack after the content-scope list is set to the name-scope
list. -/
def stackC5set : StackElement :=
  .cons ⟨7, -1, 2, false, none, ⟨["A", "NAME"]⟩, ⟨["A", "NAME"]⟩⟩ (.single frameTriv)

/-- Grammar for the end-pop counterexample: rule id 7 is a BeginEndRule
with no captures. -/
def gC5 : Grammar :=
  ⟨1, fun i => if i == 7 then .BeginEndRule (some "be") none [] [] false "e"
    else .IncludeOnlyRule (some "src") none⟩

/-- Scanner for the end-pop counterexample: always reports the end
sentinel spanning offsets 3 to 4. -/
def scC5 : Scanner := ⟨fun _ _ _ _ _ => some ⟨[⟨3, 4, 1⟩], -1⟩, fun _ _ _ _ _ _ => none⟩

/-- Line used by the end-pop counterexample. -/
def txtC5 : List Char := ['a', 'b', 'c', 'd', '\n']

/-- Loop state entering the end-pop counterexample iteration. -/
def sC5 : LoopState := ⟨false, 0, -1, stackC5, LineTokens.new⟩

/-- Grammar for the retokenization counterexample: every id resolves to an
unnamed IncludeOnlyRule, in particular the retokenization target rule 5. -/
def gC7 : Grammar := ⟨1, fun _ => .IncludeOnlyRule none none⟩

/-- Outer frame for the retokenization counterexample, with content scope
source.x. -/
def frameC7 : Frame := ⟨1, -1, -1, false, none, ⟨["source.x"]⟩, ⟨["source.x"]⟩⟩

/-- Grammar for the while-order run: rule 2 is an outer BeginWhileRule and
rule 3 an inner one. -/
def gC3 : Grammar :=
  ⟨1, fun i =>
    if i == 2 then .BeginWhileRule (some "outer") none [] []
    else if i == 3 then .BeginWhileRule (some "inner") none [] []
    else .IncludeOnlyRule (some "src") none⟩

/-- Outer BeginWhileRule frame of the while-order run. -/
def frameOuterC3 : Frame := ⟨2, -1, -1, false, none, ⟨["src", "outer"]⟩, ⟨["src", "outer"]⟩⟩

/-- Inner BeginWhileRule frame of the while-order run. -/
def frameInnerC3 : Frame :=
  ⟨3, -1, -1, false, none, ⟨["src", "outer", "inner"]⟩, ⟨["src", "outer", "inner"]⟩⟩

/-- Stack of the while-order run: root, outer while frame, inner while
frame. -/
def stackC3 : StackElement := .cons frameInnerC3 (.cons frameOuterC3 (.single frameTriv))

/-- Scanner for the while-order run: the inner while (rule 3) matches the
first two characters, the outer while (rule 2) fails. -/
def scC3 : Scanner :=
  ⟨fun _ _ _ _ _ => none,
    fun _ rid _ _ _ _ => if rid == 3 then some ⟨[⟨0, 2, 2⟩], -2⟩ else none⟩

/-- Line used by the while-order run. -/
def txtC3 : List Char := ['a', 'b', '\n']

/-- Grammar for the zero-width divergence run: rule 2 is a MatchRule with
no name and no captures. -/
def gC1 : Grammar :=
  ⟨1, fun i => if i == 2 then .MatchRule none [] else .IncludeOnlyRule (some "src") none⟩

/-- Scanner for the zero-width divergence run: it always reports a
zero-width MatchRule match at offset 0 (a regex matching the empty string
at the current position). -/
def scC1 : Scanner := ⟨fun _ _ _ _ _ => some ⟨[⟨0, 0, 0⟩], 2⟩, fun _ _ _ _ _ _ => none⟩

/-- Line used by the zero-width divergence run. -/
def txtC1 : List Char := ['a', '\n']

/-- Unfolding of the monadic bind into Res.bind. -/
theorem Res.bind_eq {α β : Type} (x : Res α) (f : α → Res β) : x >>= f = Res.bind x f := rfl

/-- Bind over a normal return applies the continuation. -/
theorem Res.ok_bind {α β : Type} (a : α) (f : α → Res β) : Res.bind (.ok a) f = f a := rfl

/-- Inversion of a successful bind: the first computation succeeded and the
continuation succeeded on its value. -/
theorem Res.eq_ok_of_bind {α β : Type} {x : Res α} {f : α → Res β} {b : β}
    (h : Res.bind x f = .ok b) : ∃ a, x = .ok a ∧ f a = .ok b := by
  cases x with
  | ok a => exact ⟨a, rfl, h⟩
  | error m => simp [Res.bind] at h
  | outOfFuel => simp [Res.bind] at h

/-- Associativity of bind on the Res embedding monad. -/
theorem Res.bind_assoc {α β γ : Type} (x : Res α) (f : α → Res β) (g : β → Res γ) :
    Res.bind (Res.bind x f) g = Res.bind x (fun a => Res.bind (f a) g) := by
  cases x <;> rfl

/-- Binding into a plain return is the identity. -/
theorem Res.bind_ok_id {α : Type} (x : Res α) : Res.bind x (fun a => Res.ok a) = x := by
  cases x <;> rfl

/-- Replacing the top frame does not change the parent. -/
theorem StackElement.withFrame_pop (s : StackElement) (f : Frame) :
    (s.withFrame f).pop = s.pop := by
  cases s <;> rfl

/-- Setting the content-scope list leaves the stored anchor position of the
top frame unchanged. -/
theorem StackElement.set_content_anchor_pos (s : StackElement) (l : ScopeListElement) :
    (s.set_content_name_scopes_list l).anchor_pos = s.anchor_pos := by
  cases s <;> rfl

/-- Popping after a push recovers the pushed-on stack exactly. -/
theorem StackElement.pop_push (s : StackElement) (f : Frame) :
    (s.push f).pop = some s := rfl

/-- The advancement step never touches the anchor position. -/
theorem advance_anchor_position (s : LoopState) (ci0 : IOnigCaptureIndex) :
    (advance s ci0).anchor_position = s.anchor_position := by
  unfold advance; split <;> rfl

/-- The advancement step never touches the stack. -/
theorem advance_stack (s : LoopState) (ci0 : IOnigCaptureIndex) :
    (advance s ci0).stack = s.stack := by
  unfold advance; split <;> rfl

/-- The advancement step never touches the tokens builder. -/
theorem advance_lt (s : LoopState) (ci0 : IOnigCaptureIndex) :
    (advance s ci0).lt = s.lt := by
  unfold advance; split <;> rfl
/-- C6: for every call to tokenize_line, a previous stack that is None or
equal to the null sentinel starts tokenization with is_first_line true and
a freshly pushed root frame whose enter and anchor positions are -1 and
whose scope lists hold the root rule's name, or "unknown" when the root
rule has no name; any other previous stack continues with is_first_line
false and reset() applied to the inherited top frame. -/
theorem tokenize_init_spec (g : Grammar) (prev : Option StackElement) :
    ((prev = none ∨ prev = some StackElement.nullStack) →
        tokenize_init g prev =
          (true, .single ⟨g.root_id, -1, -1, false, none,
            ⟨[((g.rules g.root_id).get_name none none).getD "unknown"]⟩,
            ⟨[((g.rules g.root_id).get_name none none).getD "unknown"]⟩⟩)) ∧
    (∀ p, prev = some p → p ≠ StackElement.nullStack →
        tokenize_init g prev = (false, p.reset)) := by
  constructor
  · rintro (rfl | rfl) <;> simp [tokenize_init]
  · rintro p rfl hne
    simp [tokenize_init, beq_eq_false_iff_ne.mpr hne]

/-- Witness for tokenize_init_spec at a concrete grammar and an absent
previous stack. -/
theorem tokenize_init_spec_witness :
    ((none : Option StackElement) = none ∨
        (none : Option StackElement) = some StackElement.nullStack) ∧
      tokenize_init gTriv none =
        (true, .single ⟨1, -1, -1, false, none, ⟨["src"]⟩, ⟨["src"]⟩⟩) :=
  ⟨Or.inl rfl, by
    have h := (tokenize_init_spec gTriv none).1 (Or.inl rfl)
    simpa [gTriv, Rule.get_name, Rule.rawName] using h⟩

/-- C10: when the scanner reports the end sentinel rule id -1 while the
rule of the top stack frame is not a BeginEndRule, the main loop stops
immediately and returns the current stack unchanged, popping no frame and
emitting no token. -/
theorem tokenize_loop_end_sentinel_foreign_rule (g : Grammar) (sc : Scanner) (fuel : Nat)
    (txt : List Char) (L : Nat) (s : LoopState) (r : MatchRuleResult)
    (hm : match_rule sc txt s.is_first_line s.line_pos s.stack s.anchor_position = some r)
    (hid : r.matched_rule_id = -1)
    (hbe : (g.rules s.stack.rule_id).isBeginEnd = false) :
    tokenize_loop g sc (fuel + 1 + 1) txt L s = .ok (some s.stack, s.lt) := by
  have hiter : tokenize_iter g sc (fuel + 1) txt L s = .ok (.stop (some s.stack) s.lt) := by
    simp only [tokenize_iter, hm, hid]
    cases hrule : g.rules s.stack.rule_id <;> simp_all [Rule.isBeginEnd]
  simp only [tokenize_loop, hiter, Res.bind_eq, Res.ok_bind]
/-- Witness for tokenize_loop_end_sentinel_foreign_rule at a concrete
state. -/
theorem tokenize_loop_end_sentinel_foreign_rule_witness :
    (match_rule scEnd ['a', '\n'] sTriv.is_first_line sTriv.line_pos sTriv.stack
        sTriv.anchor_position = some ⟨[], -1⟩) ∧
      (((-1 : Int)) = -1) ∧
      ((gTriv.rules sTriv.stack.rule_id).isBeginEnd = false) ∧
      tokenize_loop gTriv scEnd 2 ['a', '\n'] 2 sTriv = .ok (some sTriv.stack, sTriv.lt) :=
  ⟨rfl, rfl, rfl,
    tokenize_loop_end_sentinel_foreign_rule gTriv scEnd 0 ['a', '\n'] 2 sTriv ⟨[], -1⟩ rfl rfl rfl⟩

/-- C4 (amended): after a child-pattern match, the main loop sets the
anchor position to the end offset of the whole match when the matched rule
is a BeginEndRule or a BeginWhileRule, but leaves the anchor position
unchanged when the matched rule is a MatchRule (the MatchRule branch of
the source never assigns anchor_position). -/
theorem tokenize_iter_child_match_anchor (g : Grammar) (sc : Scanner) (fuel : Nat)
    (txt : List Char) (L : Nat) (s : LoopState) (r : MatchRuleResult) (ci0 : IOnigCaptureIndex)
    (s' : LoopState)
    (hm : match_rule sc txt s.is_first_line s.line_pos s.stack s.anchor_position = some r)
    (hid : r.matched_rule_id ≠ -1)
    (hci : r.capture_indices[0]? = some ci0)
    (hok : tokenize_iter g sc (fuel + 1) txt L s = .ok (.next s')) :
    (((g.rules r.matched_rule_id).isBeginEnd = true ∨
        (g.rules r.matched_rule_id).isBeginWhile = true) →
      s'.anchor_position = (ci0.endPos : Int)) ∧
    (∀ n c, g.rules r.matched_rule_id = .MatchRule n c →
      s'.anchor_position = s.anchor_position) := by
  have hf : (r.matched_rule_id == -1) = false := beq_eq_false_iff_ne.mpr hid
  have hg : listGet r.capture_indices 0 = .ok ci0 := by simp [listGet, hci]
  simp only [tokenize_iter, hm, hf, Bool.false_eq_true, if_false, hg, Res.bind_eq,
    Res.ok_bind] at hok
  cases hrule : g.rules r.matched_rule_id <;> simp only [hrule] at hok
  case IncludeOnlyRule => simp [Res.bind] at hok
  case EmptyRule => simp [Res.bind] at hok
  case CaptureRule => simp [Res.bind] at hok
  case MatchRule n c =>
    obtain ⟨lt2, _, hok2⟩ := Res.eq_ok_of_bind hok
    simp only [Res.ok.injEq, IterResult.next.injEq] at hok2
    constructor
    · rintro (h | h) <;> simp [hrule, Rule.isBeginEnd, Rule.isBeginWhile] at h
    · intro n' c' _
      rw [← hok2, advance_anchor_position]
  case BeginEndRule n cn bc ec ebr es =>
    obtain ⟨lt2, _, hok2⟩ := Res.eq_ok_of_bind hok
    simp only [Res.ok.injEq, IterResult.next.injEq] at hok2
    constructor
    · intro _
      rw [← hok2, advance_anchor_position]
    · intro n' c' hmr
      exact absurd hmr (by simp)
  case BeginWhileRule n cn bc wc =>
    obtain ⟨lt2, _, hok2⟩ := Res.eq_ok_of_bind hok
    simp only [Res.ok.injEq, IterResult.next.injEq] at hok2
    constructor
    · intro _
      rw [← hok2, advance_anchor_position]
    · intro n' c' hmr
      exact absurd hmr (by simp)
/-- Counterexample to C4 as stated: a MatchRule match ending at offset 5
leaves the anchor position at -1, so the anchor is not set to the end
offset of the whole match after every child-pattern match. -/
theorem tokenize_iter_match_rule_anchor_cex :
    tokenize_iter gC4 scC4 5 txtC4 6 sTriv = .ok (.next sC4next) ∧
      sC4next.anchor_position = -1 ∧ ((-1 : Int) ≠ (5 : Int)) :=
  ⟨rfl, rfl, by decide⟩

/-- Witness for tokenize_iter_child_match_anchor at the concrete MatchRule
run. -/
theorem tokenize_iter_child_match_anchor_witness :
    (match_rule scC4 txtC4 sTriv.is_first_line sTriv.line_pos sTriv.stack
        sTriv.anchor_position = some ⟨[⟨3, 5, 2⟩], 2⟩) ∧
      ((2 : Int) ≠ -1) ∧
      (([⟨3, 5, 2⟩] : List IOnigCaptureIndex)[0]? = some ⟨3, 5, 2⟩) ∧
      (tokenize_iter gC4 scC4 5 txtC4 6 sTriv = .ok (.next sC4next)) ∧
      ((((gC4.rules (2 : Int)).isBeginEnd = true ∨
          (gC4.rules (2 : Int)).isBeginWhile = true) →
        sC4next.anchor_position = ((5 : Nat) : Int)) ∧
      (∀ n c, gC4.rules (2 : Int) = .MatchRule n c →
        sC4next.anchor_position = sTriv.anchor_position)) :=
  ⟨rfl, by decide, rfl, rfl,
    tokenize_iter_child_match_anchor gC4 scC4 4 txtC4 6 sTriv ⟨[⟨3, 5, 2⟩], 2⟩ ⟨3, 5, 2⟩
      sC4next rfl (by decide) rfl rfl⟩

/-- C5 (amended): when the scanner reports the end sentinel rule id -1 and
the top frame's rule is a BeginEndRule, the iteration emits pending text
up to the match start using the top frame's current content scopes, then
sets the frame's content-scope list to its name-scope list, handles the
rule's end_captures over the updated stack, emits through the match end
with the updated stack, pops the frame, and sets the anchor position to
the popped frame's stored anchor position. -/
theorem tokenize_iter_end_pop_sequence (g : Grammar) (sc : Scanner) (fuel : Nat)
    (txt : List Char) (L : Nat) (s : LoopState) (r : MatchRuleResult) (ci0 : IOnigCaptureIndex)
    (n cn : Option String) (bc ec : List Rule) (ebr : Bool) (es : String) (stack1 : StackElement)
    (hm : match_rule sc txt s.is_first_line s.line_pos s.stack s.anchor_position = some r)
    (hid : r.matched_rule_id = -1)
    (hrule : g.rules s.stack.rule_id = .BeginEndRule n cn bc ec ebr es)
    (hci : r.capture_indices[0]? = some ci0)
    (hs1 : stack1 = s.stack.set_content_name_scopes_list s.stack.name_scopes_list) :
    tokenize_iter g sc (fuel + 1) txt L s =
      (handle_captures g sc fuel txt s.is_first_line stack1
          (s.lt.produce s.stack (ci0.start : Int)) ec r.capture_indices).bind
        (fun lt2 => .ok (.next (advance
          ⟨s.is_first_line, s.line_pos, s.stack.anchor_pos,
            (stack1.pop).getD stack1, lt2.produce stack1 (ci0.endPos : Int)⟩ ci0))) := by
  subst hs1
  have hg : listGet r.capture_indices 0 = .ok ci0 := by simp [listGet, hci]
  simp only [tokenize_iter, hm, hid, beq_self_eq_true, if_true, hrule, hg, Res.bind_eq,
    Res.ok_bind, StackElement.set_content_anchor_pos]
/-- Counterexample to C5 as stated: the pending text up to the match start
is emitted with the frame's content scopes (A, CONT), not with its name
scopes (A, NAME); the content-scope list is only set to the name-scope
list after that emission. -/
theorem tokenize_iter_end_pop_scopes_cex :
    tokenize_iter gC5 scC5 5 txtC5 5 sC5 =
      .ok (.next ⟨false, 4, 2, .single frameTriv,
        ⟨[⟨0, 3, ["A", "CONT"]⟩, ⟨3, 4, ["A", "NAME"]⟩], 4⟩⟩) ∧
      (["A", "CONT"] ≠ (["A", "NAME"] : List String)) :=
  ⟨rfl, by decide⟩

/-- Witness for tokenize_iter_end_pop_sequence at the concrete end-pop
run. -/
theorem tokenize_iter_end_pop_sequence_witness :
    (match_rule scC5 txtC5 sC5.is_first_line sC5.line_pos sC5.stack sC5.anchor_position =
        some ⟨[⟨3, 4, 1⟩], -1⟩) ∧
      ((-1 : Int) = -1) ∧
      (gC5.rules sC5.stack.rule_id = .BeginEndRule (some "be") none [] [] false "e") ∧
      (([⟨3, 4, 1⟩] : List IOnigCaptureIndex)[0]? = some ⟨3, 4, 1⟩) ∧
      (stackC5set = sC5.stack.set_content_name_scopes_list sC5.stack.name_scopes_list) ∧
      (tokenize_iter gC5 scC5 5 txtC5 5 sC5 =
        (handle_captures gC5 scC5 4 txtC5 sC5.is_first_line stackC5set
            (sC5.lt.produce sC5.stack (3 : Int)) [] [⟨3, 4, 1⟩]).bind
          (fun lt2 => .ok (.next (advance
            ⟨sC5.is_first_line, sC5.line_pos, sC5.stack.anchor_pos,
              (stackC5set.pop).getD stackC5set, lt2.produce stackC5set (4 : Int)⟩ ⟨3, 4, 1⟩)))) :=
  ⟨rfl, rfl, rfl, rfl, rfl,
    tokenize_iter_end_pop_sequence gC5 scC5 4 txtC5 5 sC5 ⟨[⟨3, 4, 1⟩], -1⟩ ⟨3, 4, 1⟩
      (some "be") none [] [] false "e" stackC5set rfl rfl rfl rfl rfl⟩

/-- C7 (amended): for a capture carrying a nonzero
retokenize_captured_with_rule_id, handle_captures emits pending text up to
the capture start, synthesizes a temporary stack whose top frame
references that rule with enter position the capture's start (anchor -1),
whose scope lists are the outer content scopes extended with the capture's
own name and content name, and recursively runs tokenize_string over the
prefix of the line ending at the capture's end offset, starting at the
capture's start offset, with while-condition checking disabled; the
capture's own scope is pushed onto the synthesized frame (it is only the
local capture stack that is left untouched). -/
theorem handle_captures_retokenize (g : Grammar) (sc : Scanner) (fuel : Nat)
    (txt : List Char) (fl : Bool) (stack : StackElement) (lt : LineTokens)
    (n cn : Option String) (retok : Int) (ci : IOnigCaptureIndex)
    (hr : retok ≠ 0) (hlen : ci.length ≠ 0) (hstart : ci.start ≤ ci.endPos) :
    handle_captures g sc (fuel + 1 + 1 + 1) txt fl stack lt
        [.CaptureRule n cn retok] [ci] =
      (tokenize_string g sc (fuel + 1) (txt.take ci.endPos) (fl && ci.start == 0)
          (ci.start : Int)
          (stack.push ⟨retok, (ci.start : Int), -1, false, none,
            stack.content_name_scopes_list.push
              ((Rule.CaptureRule n cn retok).get_name (some txt) (some [ci])),
            (stack.content_name_scopes_list.push
              ((Rule.CaptureRule n cn retok).get_name (some txt) (some [ci]))).push
              ((Rule.CaptureRule n cn retok).get_content_name (some txt) (some [ci]))⟩)
          (lt.produce stack (ci.start : Int)) false).bind
        (fun r => .ok r.2) := by
  have hlen' : (ci.length == 0) = false := beq_eq_false_iff_ne.mpr hlen
  have hr' : (retok != 0) = true := by simpa [bne] using beq_eq_false_iff_ne.mpr hr
  have hgt : ¬ (ci.start > ci.endPos) := by omega
  simp only [handle_captures, hc_loop, listGet, drain_while, drain_all, List.zip,
    List.zipWith, List.getElem?_cons_zero, List.length_cons, List.length_nil,
    Res.bind_eq, Res.ok_bind, hlen', hr', hgt, Bool.false_eq_true, if_false, if_true,
    ite_false, ite_true, Nat.reduceBEq]
  cases hts : tokenize_string g sc (fuel + 1) (txt.take ci.endPos) (fl && ci.start == 0)
      (ci.start : Int)
      (stack.push ⟨retok, (ci.start : Int), -1, false, none,
        stack.content_name_scopes_list.push
          ((Rule.CaptureRule n cn retok).get_name (some txt) (some [ci])),
        (stack.content_name_scopes_list.push
          ((Rule.CaptureRule n cn retok).get_name (some txt) (some [ci]))).push
          ((Rule.CaptureRule n cn retok).get_content_name (some txt) (some [ci]))⟩)
      (lt.produce stack (ci.start : Int)) false <;>
    simp [Res.bind, hc_loop, drain_all]
/-- Counterexample to C7 as stated: the capture's own scope cap.scope is
added to the scopes used for the retokenized region: the token emitted by
the recursive tokenize_string run carries it. -/
theorem handle_captures_retokenize_scope_cex :
    handle_captures gC7 scTriv 10 ['a', 'b', 'c', 'd'] false (.single frameC7)
        LineTokens.new [.CaptureRule (some "cap.scope") none 5] [⟨0, 4, 4⟩] =
      .ok ⟨[⟨0, 4, ["source.x", "cap.scope"]⟩], 4⟩ ∧
      "cap.scope" ∈ (["source.x", "cap.scope"] : List String) :=
  ⟨rfl, by decide⟩

/-- Witness for handle_captures_retokenize at the concrete retokenization
run. -/
theorem handle_captures_retokenize_witness :
    ((5 : Int) ≠ 0) ∧ ((4 : Nat) ≠ 0) ∧ ((0 : Nat) ≤ 4) ∧
      (handle_captures gC7 scTriv 10 ['a', 'b', 'c', 'd'] false (.single frameC7)
          LineTokens.new [.CaptureRule (some "cap.scope") none 5] [⟨0, 4, 4⟩] =
        (tokenize_string gC7 scTriv 8 (['a', 'b', 'c', 'd'].take 4) (false && (0 : Nat) == 0)
            (0 : Int)
            ((StackElement.single frameC7).push ⟨5, (0 : Int), -1, false, none,
              (StackElement.single frameC7).content_name_scopes_list.push
                ((Rule.CaptureRule (some "cap.scope") none 5).get_name
                  (some ['a', 'b', 'c', 'd']) (some [⟨0, 4, 4⟩])),
              ((StackElement.single frameC7).content_name_scopes_list.push
                ((Rule.CaptureRule (some "cap.scope") none 5).get_name
                  (some ['a', 'b', 'c', 'd']) (some [⟨0, 4, 4⟩]))).push
                ((Rule.CaptureRule (some "cap.scope") none 5).get_content_name
                  (some ['a', 'b', 'c', 'd']) (some [⟨0, 4, 4⟩]))⟩)
            (LineTokens.new.produce (.single frameC7) (0 : Int)) false).bind
          (fun r => .ok r.2)) :=
  ⟨by decide, by decide, by decide,
    handle_captures_retokenize gC7 scTriv 7 ['a', 'b', 'c', 'd'] false (.single frameC7)
      LineTokens.new (some "cap.scope") none 5 ⟨0, 4, 4⟩ (by decide) (by decide) (by decide)⟩
/-- C3: the source collects the BeginWhileRule frames walking the stack
from the top toward the root and then iterates them in that same order
(innermost frame first), not bottom-to-top as the claim and the
function's own doc comment state.  Concretely, with an inner while that
matches offsets 0 to 2 over an outer while that fails, the engine first
processes the inner condition (emitting a token and advancing line_pos to
2) and only then fails the outer condition, popping to the root; checking
the outer (bottom) frame first would have popped to the root at line_pos
0 with no token emitted. -/
theorem check_while_conditions_order_eval :
    collect_while_rules gC3 stackC3 =
      [(.BeginWhileRule (some "inner") none [] [], stackC3),
        (.BeginWhileRule (some "outer") none [] [], .cons frameOuterC3 (.single frameTriv))] ∧
      check_while_conditions gC3 scC3 20 txtC3 true 0 stackC3 LineTokens.new =
        .ok (⟨.single frameTriv, 2, 2, false⟩,
          ⟨[⟨0, 2, ["src", "outer", "inner"]⟩], 2⟩) :=
  ⟨rfl, rfl⟩
/-- Handling an empty captures list leaves the builder untouched at any
fuel (the early return of handle_captures at grammar.rs line 372). -/
theorem handle_captures_nil (g : Grammar) (sc : Scanner) (fuel : Nat) (txt : List Char)
    (fl : Bool) (stack : StackElement) (lt : LineTokens) (cis : List IOnigCaptureIndex) :
    handle_captures g sc fuel txt fl stack lt [] cis = .ok lt := by
  cases fuel <;> simp [handle_captures]

/-- One iteration of the main loop on the zero-width MatchRule match is an
exact fixpoint: the frame is pushed and popped, nothing is emitted, and
neither line_pos, anchor_position, is_first_line nor the builder change. -/
theorem tokenize_iter_zero_width_fixpoint (k : Nat) :
    tokenize_iter gC1 scC1 (k + 1) txtC1 2 sTriv = .ok (.next sTriv) := by
  simp [tokenize_iter, handle_captures_nil, match_rule, scC1, gC1, sTriv, frameTriv, txtC1,
    listGet, advance, asUsize, LineTokens.produce, LineTokens.produce_from_scopes,
    LineTokens.new, StackElement.push, StackElement.pop, StackElement.content_name_scopes_list,
    StackElement.rule_id, StackElement.name_scopes_list, StackElement.anchor_pos,
    StackElement.frame, ScopeListElement.push, Rule.get_name, Rule.rawName,
    Res.bind_eq, Res.ok_bind]

/-- C1: the main match loop of tokenize_string has no stuck-loop guard: on
a zero-width MatchRule match that does not advance line_pos the loop
re-enters with an identical state, so for every fuel bound the loop fails
to terminate the line (it exhausts any fuel), contradicting the claim that
the engine terminates the line within one more iteration. -/
theorem tokenize_loop_zero_width_diverges :
    ∀ fuel, tokenize_loop gC1 scC1 fuel txtC1 2 sTriv = .outOfFuel := by
  intro fuel
  induction fuel with
  | zero => rfl
  | succ n ih =>
      cases n with
      | zero => rfl
      | succ k =>
          simp only [tokenize_loop, tokenize_iter_zero_width_fixpoint, Res.bind_eq, Res.ok_bind]
          exact ih

/-- Every stop outcome of a main-loop iteration carries some stack: the
two stopping branches (no match, and end sentinel over a non-BeginEndRule)
both return the current stack wrapped in some. -/
theorem tokenize_iter_stop_isSome (g : Grammar) (sc : Scanner) :
    ∀ fuel txt L s ret lt,
      tokenize_iter g sc fuel txt L s = .ok (.stop ret lt) → ret.isSome = true := by
  intro fuel txt L s ret lt h
  cases fuel with
  | zero => simp [tokenize_iter] at h
  | succ f =>
    rw [tokenize_iter] at h
    cases hm : match_rule sc txt s.is_first_line s.line_pos s.stack s.anchor_position with
    | none =>
        simp only [hm, Res.ok.injEq, IterResult.stop.injEq] at h
        rw [← h.1]
        rfl
    | some cr =>
        simp only [hm] at h
        by_cases hid : cr.matched_rule_id = -1
        · simp only [hid, beq_self_eq_true, if_true, Res.bind_eq] at h
          cases hrule : g.rules s.stack.rule_id <;> simp only [hrule] at h <;>
            first
              | (obtain ⟨ci0, _, h⟩ := Res.eq_ok_of_bind h
                 obtain ⟨lt2, _, h⟩ := Res.eq_ok_of_bind h
                 simp at h)
              | (simp only [Res.ok.injEq, IterResult.stop.injEq] at h
                 rw [← h.1]
                 rfl)
        · have hf : (cr.matched_rule_id == -1) = false := beq_eq_false_iff_ne.mpr hid
          simp only [hf, Bool.false_eq_true, if_false, Res.bind_eq] at h
          obtain ⟨ci0, _, h⟩ := Res.eq_ok_of_bind h
          cases hrule : g.rules cr.matched_rule_id <;> simp only [hrule] at h <;>
            first
              | (obtain ⟨lt2, _, h⟩ := Res.eq_ok_of_bind h
                 simp at h)
              | simp at h

/-- Every successful run of the main loop returns some stack paired with
the builder. -/
theorem tokenize_loop_ok_isSome (g : Grammar) (sc : Scanner) (txt : List Char) (L : Nat) :
    ∀ fuel s v, tokenize_loop g sc fuel txt L s = .ok v → v.1.isSome = true := by
  intro fuel
  induction fuel with
  | zero => intro s v h; simp [tokenize_loop] at h
  | succ f ih =>
    intro s v h
    simp only [tokenize_loop, Res.bind_eq] at h
    obtain ⟨r, hr, h⟩ := Res.eq_ok_of_bind h
    cases r with
    | stop ret lt =>
        simp only [Res.ok.injEq] at h
        rw [← h]
        exact tokenize_iter_stop_isSome g sc f txt L s ret lt hr
    | next s1 => exact ih s1 v h

/-- C8: whenever tokenize_string returns through the normal return path it
returns Some(stack), and consequently whenever tokenize_line returns it
returns a full TokenizeResult whose rule stack is present: no error
condition reaches the caller through the normal return path. -/
theorem tokenize_string_returns_some :
    (∀ (g : Grammar) (sc : Scanner) fuel txt fl lp st lt cwf v,
        tokenize_string g sc fuel txt fl lp st lt cwf = .ok v → v.1.isSome = true) ∧
    (∀ (g : Grammar) (sc : Scanner) fuel txt prev v,
        tokenize_line g sc fuel txt prev = .ok v → v.2.isSome = true) := by
  have hts : ∀ (g : Grammar) (sc : Scanner) fuel txt fl lp st lt cwf v,
      tokenize_string g sc fuel txt fl lp st lt cwf = .ok v → v.1.isSome = true := by
    intro g sc fuel txt fl lp st lt cwf v h
    cases fuel with
    | zero => simp [tokenize_string] at h
    | succ f =>
      simp only [tokenize_string] at h
      cases cwf with
      | false =>
          simp only [Bool.false_eq_true, if_false] at h
          exact tokenize_loop_ok_isSome g sc txt txt.length f _ v h
      | true =>
          simp only [if_true, Res.bind_eq] at h
          obtain ⟨r, _, h⟩ := Res.eq_ok_of_bind h
          exact tokenize_loop_ok_isSome g sc txt txt.length f _ v h
  refine ⟨hts, ?_⟩
  intro g sc fuel txt prev v h
  simp only [tokenize_line, tokenize, Res.bind_eq] at h
  obtain ⟨r, hr, h⟩ := Res.eq_ok_of_bind h
  obtain ⟨stack, hst, h⟩ := Res.eq_ok_of_bind h
  simp only [Res.ok.injEq] at h
  rw [← h]
  cases hr1 : r.1 with
  | none => rw [hr1] at hst; simp [optGet] at hst
  | some s0 => rfl

/-- Witness for tokenize_string_returns_some at a concrete run with the
trivial scanner. -/
theorem tokenize_string_returns_some_witness :
    (tokenize_string gTriv scTriv 5 ['a', '\n'] false 0 (.single frameTriv)
        LineTokens.new false = .ok (some (.single frameTriv), ⟨[⟨0, 2, ["src"]⟩], 2⟩)) ∧
      ((some (StackElement.single frameTriv), (⟨[⟨0, 2, ["src"]⟩], 2⟩ : LineTokens)).1.isSome
        = true) :=
  ⟨rfl,
    tokenize_string_returns_some.1 gTriv scTriv 5 ['a', '\n'] false 0 (.single frameTriv)
      LineTokens.new false (some (.single frameTriv), ⟨[⟨0, 2, ["src"]⟩], 2⟩) rfl⟩

/-- C9: tokenization is deterministic and resumable: tokenize_line is a
function of the line text and the incoming stack alone, and running the
threaded tokenizer over l1 followed by l2 yields, on the suffix l2,
exactly the token lists and final stack of a separate run of l2 started
from the stack recorded after l1. -/
theorem run_lines_resumable (g : Grammar) (sc : Scanner) (fuel : Nat) :
    ∀ (l1 l2 : List (List Char)) (st0 : Option StackElement) (toks1 : List (List IToken))
      (st1 : Option StackElement),
      run_lines g sc fuel l1 st0 = .ok (toks1, st1) →
      run_lines g sc fuel (l1 ++ l2) st0 =
        (run_lines g sc fuel l2 st1).bind (fun r2 => .ok (toks1 ++ r2.1, r2.2)) := by
  intro l1
  induction l1 with
  | nil =>
      intro l2 st0 toks1 st1 h
      simp only [run_lines, Res.ok.injEq, Prod.mk.injEq] at h
      obtain ⟨h1, h2⟩ := h
      subst h1
      subst h2
      simp only [List.nil_append]
      cases run_lines g sc fuel l2 st0 <;> simp [Res.bind]
  | cons l ls ih =>
      intro l2 st0 toks1 st1 h
      simp only [run_lines, Res.bind_eq, List.cons_append, List.append_eq] at h ⊢
      obtain ⟨r, hr, h⟩ := Res.eq_ok_of_bind h
      obtain ⟨rest, hrest, h⟩ := Res.eq_ok_of_bind h
      simp only [Res.ok.injEq, Prod.mk.injEq] at h
      obtain ⟨h1, h2⟩ := h
      subst h1
      subst h2
      rw [hr, Res.ok_bind, ih l2 r.2 rest.1 rest.2 hrest]
      cases run_lines g sc fuel l2 rest.2 <;> simp [Res.bind]

/-- Witness for run_lines_resumable: rerunning the second line from the
recorded stack matches the combined run with the trivial scanner. -/
theorem run_lines_resumable_witness :
    (run_lines gTriv scTriv 10 [['a']] none =
        .ok ([[⟨0, 2, ["src"]⟩]], some (.single frameTriv))) ∧
      run_lines gTriv scTriv 10 ([['a']] ++ [['b']]) none =
        (run_lines gTriv scTriv 10 [['b']] (some (.single frameTriv))).bind
          (fun r2 => .ok ([[⟨0, 2, ["src"]⟩]] ++ r2.1, r2.2)) :=
  ⟨rfl, run_lines_resumable gTriv scTriv 10 [['a']] [['b']] none
    [[⟨0, 2, ["src"]⟩]] (some (.single frameTriv)) rfl⟩

/-- Appending a fresh token that starts at the chain's end extends the
chain. -/
theorem chainB_append (toks : List IToken) (sc : List String) :
    ∀ (s e e2 : Int), chainB s toks e = true → e < e2 →
      chainB s (toks ++ [⟨e, e2, sc⟩]) e2 = true := by
  induction toks with
  | nil =>
      intro s e e2 h he
      simp [chainB, beq_iff_eq] at h
      subst h
      simp [chainB, he]
  | cons t ts ih =>
      intro s e e2 h he
      simp only [chainB, Bool.and_eq_true, beq_iff_eq, decide_eq_true_eq] at h
      simp only [List.cons_append, chainB, Bool.and_eq_true, beq_iff_eq, decide_eq_true_eq]
      obtain ⟨⟨h1, h2⟩, h3⟩ := h
      exact ⟨⟨h1, h2⟩, ih t.end_index e e2 h3 he⟩

/-- Emitting through produce_from_scopes preserves the builder invariant as
long as the end offset stays within the bound. -/
theorem produce_from_scopes_inv {L : Int} {lt : LineTokens} (scs : ScopeListElement) (e : Int)
    (hI : LtInv L lt) (he : e ≤ L) : LtInv L (lt.produce_from_scopes scs e) := by
  obtain ⟨hc, h0, hL⟩ := hI
  unfold LineTokens.produce_from_scopes
  split
  · exact ⟨hc, h0, hL⟩
  · next hgt =>
      refine ⟨?_, ?_, ?_⟩
      · exact chainB_append lt.tokens scs.scopes 0 lt.last_token_end_index e hc (by omega)
      · show (0 : Int) ≤ e
        omega
      · show e ≤ L
        exact he

/-- Emitting through produce preserves the builder invariant as long as the
end offset stays within the bound. -/
theorem produce_inv {L : Int} {lt : LineTokens} (stack : StackElement) (e : Int)
    (hI : LtInv L lt) (he : e ≤ L) : LtInv L (lt.produce stack e) :=
  produce_from_scopes_inv _ e hI he

/-- Draining local-stack entries preserves the builder invariant and the
bound on the remaining entries. -/
theorem drain_while_inv {L : Int} (p : Int) :
    ∀ (ls : List LocalStackElement) (lt : LineTokens), LtInv L lt → LocalsBounded L ls →
      LtInv L (drain_while ls lt p).2 ∧ LocalsBounded L (drain_while ls lt p).1 := by
  intro ls
  induction ls with
  | nil => intro lt hI hB; exact ⟨hI, hB⟩
  | cons e rest ih =>
      intro lt hI hB
      unfold drain_while
      split
      · exact ih _ (produce_from_scopes_inv _ _ hI (hB e (by simp)))
          (fun x hx => hB x (by simp [hx]))
      · exact ⟨hI, hB⟩

/-- Draining the whole local stack preserves the builder invariant. -/
theorem drain_all_inv {L : Int} :
    ∀ (ls : List LocalStackElement) (lt : LineTokens), LtInv L lt → LocalsBounded L ls →
      LtInv L (drain_all ls lt) := by
  intro ls
  induction ls with
  | nil => intro lt hI _; exact hI
  | cons e rest ih =>
      intro lt hI hB
      unfold drain_all
      exact ih _ (produce_from_scopes_inv _ _ hI (hB e (by simp)))
        (fun x hx => hB x (by simp [hx]))

/-- A successful listGet returns an element of the list. -/
theorem listGet_mem {α : Type} {l : List α} {i : Nat} {a : α}
    (h : listGet l i = .ok a) : a ∈ l := by
  unfold listGet at h
  cases h2 : l[i]? with
  | none => rw [h2] at h; simp at h
  | some b =>
      rw [h2] at h
      simp only [Res.ok.injEq] at h
      subst h
      obtain ⟨hlt, hEq⟩ := List.getElem?_eq_some.mp h2
      rw [← hEq]
      exact List.getElem_mem hlt

/-- Capture-index bounds are monotone in the bound. -/
theorem BoundedCis.mono {l L : Int} {cis : List IOnigCaptureIndex}
    (h : BoundedCis l cis) (hle : l ≤ L) : BoundedCis L cis :=
  fun ci hci => ⟨le_trans (h ci hci).1 hle, le_trans (h ci hci).2 hle⟩

/-- The final get_result emission yields full gap-free coverage of the
interval from 0 to L whenever the builder invariant holds and L is
positive. -/
theorem get_result_covers {L : Int} {lt : LineTokens} (stack : StackElement)
    (hI : LtInv L lt) (hL : 1 ≤ L) : covers (lt.get_result stack L) L := by
  obtain ⟨hc, h0, hle⟩ := hI
  unfold LineTokens.get_result LineTokens.produce LineTokens.produce_from_scopes
  split
  · next hle2 =>
      have heq : lt.last_token_end_index = L := le_antisymm hle hle2
      rw [heq] at hc
      refine ⟨?_, hc⟩
      intro hnil
      rw [hnil] at hc
      simp [chainB, beq_iff_eq] at hc
      omega
  · next hgt =>
      constructor
      · simp
      · exact chainB_append lt.tokens _ 0 lt.last_token_end_index L hc (by omega)

/-- Builder-invariant preservation for the whole engine: under a bounded
scanner oracle every successfully returning engine function carries the
tokens-chain invariant from its input builder to its output builder, for
any fuel.  The seven conjuncts cover tokenize_string, tokenize_loop,
tokenize_iter, check_while_conditions, cw_loop, handle_captures and
hc_loop. -/
theorem engine_inv (L : Int) (g : Grammar) (sc : Scanner) (hsc : BoundedScanner sc) :
    ∀ fuel : Nat,
      (∀ txt fl lp st lt cwf v, (txt.length : Int) ≤ L → LtInv L lt →
          tokenize_string g sc fuel txt fl lp st lt cwf = .ok v → LtInv L v.2) ∧
      (∀ txt ll s v, (txt.length : Int) ≤ L → ((ll : Nat) : Int) ≤ L → LtInv L s.lt →
          tokenize_loop g sc fuel txt ll s = .ok v → LtInv L v.2) ∧
      (∀ txt ll s r, (txt.length : Int) ≤ L → ((ll : Nat) : Int) ≤ L → LtInv L s.lt →
          tokenize_iter g sc fuel txt ll s = .ok r →
          (∀ ret lt', r = .stop ret lt' → LtInv L lt') ∧
          (∀ s1, r = .next s1 → LtInv L s1.lt)) ∧
      (∀ txt fl lp st lt v, (txt.length : Int) ≤ L → LtInv L lt →
          check_while_conditions g sc fuel txt fl lp st lt = .ok v → LtInv L v.2) ∧
      (∀ txt items st fl lp ap lt v, (txt.length : Int) ≤ L → LtInv L lt →
          cw_loop g sc fuel txt items st fl lp ap lt = .ok v → LtInv L v.2) ∧
      (∀ txt fl st lt caps cis v, (txt.length : Int) ≤ L → BoundedCis L cis → LtInv L lt →
          handle_captures g sc fuel txt fl st lt caps cis = .ok v → LtInv L v) ∧
      (∀ txt fl st lt cis maxe items ls v, (txt.length : Int) ≤ L → BoundedCis L cis →
          (∀ p ∈ items, ((p.2.start : Nat) : Int) ≤ L ∧ ((p.2.endPos : Nat) : Int) ≤ L) →
          LocalsBounded L ls → LtInv L lt →
          hc_loop g sc fuel txt fl st lt cis maxe items ls = .ok v →
          LtInv L v.2 ∧ LocalsBounded L v.1) := by
  intro fuel
  induction fuel with
  | zero =>
      refine ⟨?_, ?_, ?_, ?_, ?_, ?_, ?_⟩
      · intro txt fl lp st lt cwf v _ _ h; simp [tokenize_string] at h
      · intro txt ll s v _ _ _ h; simp [tokenize_loop] at h
      · intro txt ll s r _ _ _ h; simp [tokenize_iter] at h
      · intro txt fl lp st lt v _ _ h; simp [check_while_conditions] at h
      · intro txt items st fl lp ap lt v _ _ h; simp [cw_loop] at h
      · intro txt fl st lt caps cis v _ _ hI h
        cases hcaps : (caps.length == 0) with
        | true => simp [handle_captures, hcaps] at h; rw [← h]; exact hI
        | false => simp [handle_captures, hcaps] at h
      · intro txt fl st lt cis maxe items ls v _ _ _ _ _ h; simp [hc_loop] at h
  | succ f ih =>
      obtain ⟨ihTS, ihLoop, ihIter, ihCW, ihCWL, ihHC, ihHCL⟩ := ih
      have compTS : ∀ txt fl lp st lt cwf v, (txt.length : Int) ≤ L → LtInv L lt →
          tokenize_string g sc (f + 1) txt fl lp st lt cwf = .ok v → LtInv L v.2 := by
        intro txt fl lp st lt cwf v hlen hI h
        rw [tokenize_string] at h
        cases cwf with
        | false =>
            simp only [Bool.false_eq_true, if_false] at h
            exact ihLoop txt txt.length _ v hlen hlen hI h
        | true =>
            simp only [if_true, Res.bind_eq] at h
            obtain ⟨r, hr, h⟩ := Res.eq_ok_of_bind h
            have hIr := ihCW txt fl lp st lt r hlen hI hr
            exact ihLoop txt txt.length _ v hlen hlen hIr h
      have compIter : ∀ txt ll s r, (txt.length : Int) ≤ L → ((ll : Nat) : Int) ≤ L →
          LtInv L s.lt → tokenize_iter g sc (f + 1) txt ll s = .ok r →
          (∀ ret lt', r = .stop ret lt' → LtInv L lt') ∧
          (∀ s1, r = .next s1 → LtInv L s1.lt) := by
        intro txt ll s r hlen hll hI h
        rw [tokenize_iter] at h
        cases hm : match_rule sc txt s.is_first_line s.line_pos s.stack s.anchor_position with
        | none =>
            simp only [hm, Res.ok.injEq] at h
            subst h
            constructor
            · intro ret lt' heq
              cases heq
              exact produce_inv _ _ hI hll
            · intro s1 heq
              simp at heq
        | some cr =>
            simp only [hm] at h
            have hm2 : sc.find_next_match txt s.is_first_line (s.line_pos == s.anchor_position)
                s.line_pos s.stack = some cr := hm
            have hbnd : BoundedCis L cr.capture_indices :=
              BoundedCis.mono (hsc.1 txt _ _ _ _ cr hm2) hlen
            have hstop : ∀ (r' : IterResult),
                Res.ok (IterResult.stop (some s.stack) s.lt) = Res.ok r' →
                (∀ ret lt', r' = .stop ret lt' → LtInv L lt') ∧
                (∀ s1, r' = .next s1 → LtInv L s1.lt) := by
              intro r' h'
              simp only [Res.ok.injEq] at h'
              subst h'
              exact ⟨fun ret lt' heq => by cases heq; exact hI,
                fun s1 heq => by simp at heq⟩
            have hnext : ∀ (r' : IterResult) (s0 : LoopState) (ci0 : IOnigCaptureIndex),
                LtInv L s0.lt →
                Res.ok (IterResult.next (advance s0 ci0)) = Res.ok r' →
                (∀ ret lt', r' = .stop ret lt' → LtInv L lt') ∧
                (∀ s1, r' = .next s1 → LtInv L s1.lt) := by
              intro r' s0 ci0 hI0 h'
              simp only [Res.ok.injEq] at h'
              subst h'
              refine ⟨fun ret lt' heq => by simp at heq, fun s1 heq => ?_⟩
              cases heq
              rw [advance_lt]
              exact hI0
            by_cases hid : cr.matched_rule_id = -1
            · simp only [hid, beq_self_eq_true, if_true] at h
              cases hrule : g.rules s.stack.rule_id with
              | BeginEndRule n cn bc ec ebr es =>
                  simp only [hrule, Res.bind_eq] at h
                  obtain ⟨ci0, hci, h⟩ := Res.eq_ok_of_bind h
                  have hb0 := hbnd ci0 (listGet_mem hci)
                  obtain ⟨lt2, hlt2, h⟩ := Res.eq_ok_of_bind h
                  have hI1 : LtInv L (s.lt.produce s.stack (ci0.start : Int)) :=
                    produce_inv _ _ hI hb0.1
                  have hI2 := ihHC txt s.is_first_line _ _ ec cr.capture_indices _ hlen hbnd
                    hI1 hlt2
                  exact hnext _ _ ci0 (produce_inv _ _ hI2 hb0.2) h
              | IncludeOnlyRule a b => simp only [hrule] at h; exact hstop _ h
              | MatchRule a b => simp only [hrule] at h; exact hstop _ h
              | BeginWhileRule a b c d => simp only [hrule] at h; exact hstop _ h
              | CaptureRule a b c => simp only [hrule] at h; exact hstop _ h
              | EmptyRule => simp only [hrule] at h; exact hstop _ h
            · have hf : (cr.matched_rule_id == -1) = false := beq_eq_false_iff_ne.mpr hid
              simp only [hf, Bool.false_eq_true, if_false, Res.bind_eq] at h
              obtain ⟨ci0, hci, h⟩ := Res.eq_ok_of_bind h
              have hb0 := hbnd ci0 (listGet_mem hci)
              have hI1 : LtInv L (s.lt.produce s.stack (ci0.start : Int)) :=
                produce_inv _ _ hI hb0.1
              cases hrule : g.rules cr.matched_rule_id with
              | IncludeOnlyRule a b => simp only [hrule] at h; simp [Res.bind] at h
              | EmptyRule => simp only [hrule] at h; simp [Res.bind] at h
              | CaptureRule a b c => simp only [hrule] at h; simp [Res.bind] at h
              | BeginEndRule n cn bc ec ebr es =>
                  simp only [hrule, Res.bind_eq] at h
                  obtain ⟨lt2, hlt2, h⟩ := Res.eq_ok_of_bind h
                  exact hnext _ _ ci0 (produce_inv _ _
                    (ihHC txt s.is_first_line _ _ bc cr.capture_indices _ hlen hbnd hI1 hlt2)
                    hb0.2) h
              | BeginWhileRule n cn bc wc =>
                  simp only [hrule, Res.bind_eq] at h
                  obtain ⟨lt2, hlt2, h⟩ := Res.eq_ok_of_bind h
                  exact hnext _ _ ci0 (produce_inv _ _
                    (ihHC txt s.is_first_line _ _ bc cr.capture_indices _ hlen hbnd hI1 hlt2)
                    hb0.2) h
              | MatchRule n c =>
                  simp only [hrule, Res.bind_eq] at h
                  obtain ⟨lt2, hlt2, h⟩ := Res.eq_ok_of_bind h
                  exact hnext _ _ ci0 (produce_inv _ _
                    (ihHC txt s.is_first_line _ _ c cr.capture_indices _ hlen hbnd hI1 hlt2)
                    hb0.2) h
      have compLoop : ∀ txt ll s v, (txt.length : Int) ≤ L → ((ll : Nat) : Int) ≤ L →
          LtInv L s.lt → tokenize_loop g sc (f + 1) txt ll s = .ok v → LtInv L v.2 := by
        intro txt ll s v hlen hll hI h
        rw [tokenize_loop] at h
        simp only [Res.bind_eq] at h
        obtain ⟨r, hr, h⟩ := Res.eq_ok_of_bind h
        have hit := ihIter txt ll s r hlen hll hI hr
        cases r with
        | stop ret lt' =>
            simp only [Res.ok.injEq] at h
            rw [← h]
            exact hit.1 ret lt' rfl
        | next s1 => exact ihLoop txt ll s1 v hlen hll (hit.2 s1 rfl) h
      have compCWL : ∀ txt items st fl lp ap lt v, (txt.length : Int) ≤ L → LtInv L lt →
          cw_loop g sc (f + 1) txt items st fl lp ap lt = .ok v → LtInv L v.2 := by
        intro txt items st fl lp ap lt v hlen hI h
        cases items with
        | nil =>
            rw [cw_loop] at h
            simp only [Res.ok.injEq] at h
            rw [← h]
            exact hI
        | cons p rest =>
            obtain ⟨rule, frame⟩ := p
            rw [cw_loop] at h
            cases hw : sc.find_while_match txt frame.rule_id frame.end_rule fl
                (ap == lp) lp with
            | none =>
                simp only [hw, Res.bind_eq] at h
                obtain ⟨s1, _, h⟩ := Res.eq_ok_of_bind h
                simp only [Res.ok.injEq] at h
                rw [← h]
                exact hI
            | some wr =>
                simp only [hw] at h
                have hbnd : BoundedCis L wr.capture_indices :=
                  BoundedCis.mono (hsc.2 txt _ _ _ _ _ wr hw) hlen
                cases hcond : (wr.matched_rule_id != -2) with
                | true =>
                    simp only [hcond, if_true, Res.bind_eq] at h
                    obtain ⟨s1, _, h⟩ := Res.eq_ok_of_bind h
                    simp only [Res.ok.injEq] at h
                    rw [← h]
                    exact hI
                | false =>
                    simp only [hcond, Bool.false_eq_true, if_false] at h
                    by_cases hlt0 : wr.capture_indices.length > 0
                    · simp only [if_pos hlt0, Res.bind_eq] at h
                      obtain ⟨ci0, hci, h⟩ := Res.eq_ok_of_bind h
                      have hb0 := hbnd ci0 (listGet_mem hci)
                      obtain ⟨lt2, hlt2, h⟩ := Res.eq_ok_of_bind h
                      have hI1 : LtInv L (lt.produce frame (ci0.start : Int)) :=
                        produce_inv _ _ hI hb0.1
                      have hI2 := ihHC txt fl frame _ _ wr.capture_indices _ hlen hbnd hI1 hlt2
                      have hI3 : LtInv L (lt2.produce frame (ci0.endPos : Int)) :=
                        produce_inv _ _ hI2 hb0.2
                      split at h
                      · exact ihCWL txt rest st _ _ _ _ v hlen hI3 h
                      · exact ihCWL txt rest st _ _ _ _ v hlen hI3 h
                    · simp only [if_neg hlt0] at h
                      exact ihCWL txt rest st _ _ _ _ v hlen hI h
      have compCW : ∀ txt fl lp st lt v, (txt.length : Int) ≤ L → LtInv L lt →
          check_while_conditions g sc (f + 1) txt fl lp st lt = .ok v → LtInv L v.2 := by
        intro txt fl lp st lt v hlen hI h
        rw [check_while_conditions] at h
        exact ihCWL txt _ st fl lp _ lt v hlen hI h
      have compHCL : ∀ txt fl st lt cis maxe items ls v, (txt.length : Int) ≤ L →
          BoundedCis L cis →
          (∀ p ∈ items, ((p.2.start : Nat) : Int) ≤ L ∧ ((p.2.endPos : Nat) : Int) ≤ L) →
          LocalsBounded L ls → LtInv L lt →
          hc_loop g sc (f + 1) txt fl st lt cis maxe items ls = .ok v →
          LtInv L v.2 ∧ LocalsBounded L v.1 := by
        intro txt fl st lt cis maxe items ls v hlen hbnd hitems hls hI h
        cases items with
        | nil =>
            rw [hc_loop] at h
            simp only [Res.ok.injEq] at h
            rw [← h]
            exact ⟨hI, hls⟩
        | cons p rest =>
            obtain ⟨rule, ci⟩ := p
            have hrest : ∀ p ∈ rest, ((p.2.start : Nat) : Int) ≤ L ∧
                ((p.2.endPos : Nat) : Int) ≤ L := fun p hp => hitems p (by simp [hp])
            have hcib := hitems (rule, ci) (by simp)
            cases rule with
            | IncludeOnlyRule a b =>
                rw [hc_loop] at h
                all_goals first
                  | exact ihHCL txt fl st lt cis maxe rest ls v hlen hbnd hrest hls hI h
                  | simp
            | MatchRule a b =>
                rw [hc_loop] at h
                all_goals first
                  | exact ihHCL txt fl st lt cis maxe rest ls v hlen hbnd hrest hls hI h
                  | simp
            | BeginEndRule a b c d e f' =>
                rw [hc_loop] at h
                all_goals first
                  | exact ihHCL txt fl st lt cis maxe rest ls v hlen hbnd hrest hls hI h
                  | simp
            | BeginWhileRule a b c d =>
                rw [hc_loop] at h
                all_goals first
                  | exact ihHCL txt fl st lt cis maxe rest ls v hlen hbnd hrest hls hI h
                  | simp
            | EmptyRule =>
                rw [hc_loop] at h
                all_goals first
                  | exact ihHCL txt fl st lt cis maxe rest ls v hlen hbnd hrest hls hI h
                  | simp
            | CaptureRule n cn retok =>
              rw [hc_loop] at h
              cases hlen0 : (ci.length == 0) with
              | true =>
                  simp only [hlen0, if_true] at h
                  exact ihHCL txt fl st lt cis maxe rest ls v hlen hbnd hrest hls hI h
              | false =>
                  simp only [hlen0, Bool.false_eq_true, if_false] at h
                  by_cases hgt : ci.start > maxe
                  · simp only [if_pos hgt] at h
                    exact ihHCL txt fl st lt cis maxe rest ls v hlen hbnd hrest hls hI h
                  · simp only [if_neg hgt] at h
                    have hdr := drain_while_inv (L := L) (ci.start : Int) ls lt hI hls
                    have hI2 : LtInv L
                        (match (drain_while ls lt (ci.start : Int)).1 with
                          | e :: _ => (drain_while ls lt (ci.start : Int)).2.produce_from_scopes
                              e.scopes (ci.start : Int)
                          | [] => (drain_while ls lt (ci.start : Int)).2.produce st
                              (ci.start : Int)) := by
                      cases hd : (drain_while ls lt (ci.start : Int)).1 with
                      | nil => exact produce_inv _ _ hdr.1 hcib.1
                      | cons e es => exact produce_from_scopes_inv _ _ hdr.1 hcib.1
                    cases hretok : (retok != 0) with
                    | true =>
                        simp only [hretok, if_true, Res.bind_eq] at h
                        obtain ⟨rts, hts, h⟩ := Res.eq_ok_of_bind h
                        have hsub : (((txt.take ci.endPos).length : Nat) : Int) ≤ L := by
                          have h1 : (txt.take ci.endPos).length ≤ txt.length := by
                            simp [List.length_take]
                          calc (((txt.take ci.endPos).length : Nat) : Int)
                              ≤ (txt.length : Int) := by exact_mod_cast h1
                            _ ≤ L := hlen
                        have hI3 := ihTS _ _ _ _ _ _ rts hsub hI2 hts
                        exact ihHCL txt fl st rts.2 cis maxe rest _ v hlen hbnd hrest hdr.2 hI3 h
                    | false =>
                        simp only [hretok, Bool.false_eq_true, if_false] at h
                        cases hname : (Rule.CaptureRule n cn retok).get_name (some txt)
                            (some cis) with
                        | some nm =>
                            simp only [hname] at h
                            refine ihHCL txt fl st _ cis maxe rest _ v hlen hbnd hrest ?_ hI2 h
                            intro x hx
                            simp only [List.mem_cons] at hx
                            cases hx with
                            | inl hx => rw [hx]; exact hcib.2
                            | inr hx => exact hdr.2 x hx
                        | none =>
                            simp only [hname] at h
                            exact ihHCL txt fl st _ cis maxe rest _ v hlen hbnd hrest hdr.2 hI2 h
      have compHC : ∀ txt fl st lt caps cis v, (txt.length : Int) ≤ L → BoundedCis L cis →
          LtInv L lt → handle_captures g sc (f + 1) txt fl st lt caps cis = .ok v →
          LtInv L v := by
        intro txt fl st lt caps cis v hlen hbnd hI h
        cases hcaps : (caps.length == 0) with
        | true =>
            rw [handle_captures] at h
            simp only [hcaps, if_true, Res.ok.injEq] at h
            rw [← h]
            exact hI
        | false =>
            rw [handle_captures] at h
            simp only [hcaps, Bool.false_eq_true, if_false, Res.bind_eq] at h
            obtain ⟨ci0, hci, h⟩ := Res.eq_ok_of_bind h
            obtain ⟨rr, hrr, h⟩ := Res.eq_ok_of_bind h
            have hitems : ∀ p ∈ caps.zip cis, ((p.2.start : Nat) : Int) ≤ L ∧
                ((p.2.endPos : Nat) : Int) ≤ L := by
              intro p hp
              exact hbnd p.2 (List.of_mem_zip hp).2
            have hres := ihHCL txt fl st lt cis ci0.endPos (caps.zip cis) [] rr hlen hbnd
              hitems (fun x hx => by simp at hx) hI hrr
            simp only [Res.ok.injEq] at h
            rw [← h]
            exact drain_all_inv rr.1 rr.2 hres.1 hres.2
      exact ⟨compTS, compLoop, compIter, compCW, compCWL, compHC, compHCL⟩

/-- C2: for every input line and previous stack, under the scanner's
contract that reported capture indices lie within the scanned text, the
token list returned by tokenize_line covers the interval from 0 to the
padded line length (the length recorded by tokenize after appending the
newline) with no gaps and no overlaps: the first token starts at 0, each
token ends where the next one starts, and the last token ends at the line
length. -/
theorem tokenize_line_covers_line (g : Grammar) (sc : Scanner) (fuel : Nat)
    (line : List Char) (prev : Option StackElement) (toks : List IToken)
    (st' : Option StackElement)
    (hsc : BoundedScanner sc)
    (h : tokenize_line g sc fuel line prev = .ok (toks, st')) :
    covers toks ((line.length : Int) + 1) := by
  simp only [tokenize_line, tokenize, Res.bind_eq] at h
  obtain ⟨r, hr, h⟩ := Res.eq_ok_of_bind h
  obtain ⟨stack, hst, h⟩ := Res.eq_ok_of_bind h
  simp only [Res.ok.injEq, Prod.mk.injEq] at h
  obtain ⟨h1, h2⟩ := h
  subst h1
  have hnn : (0 : Int) ≤ (line.length : Int) := Int.ofNat_nonneg line.length
  have hlen : (((line ++ ['\n']).length : Nat) : Int) ≤ (line.length : Int) + 1 := by
    simp [List.length_append]
  have hI0 : LtInv ((line.length : Int) + 1) LineTokens.new :=
    ⟨rfl, le_refl 0, show (0 : Int) ≤ (line.length : Int) + 1 by omega⟩
  have hIr := (engine_inv ((line.length : Int) + 1) g sc hsc fuel).1 _ _ _ _ _ _ r hlen hI0 hr
  have hcov := get_result_covers stack hIr (by omega)
  have hL : (((line ++ ['\n']).length : Nat) : Int) = (line.length : Int) + 1 := by
    simp [List.length_append]
  rw [hL]
  exact hcov

/-- Witness for tokenize_line_covers_line: the trivial scanner is bounded
and the single produced token covers the padded line exactly. -/
theorem tokenize_line_covers_line_witness :
    BoundedScanner scTriv ∧
      (tokenize_line gTriv scTriv 10 ['a'] none =
        .ok ([⟨0, 2, ["src"]⟩], some (.single frameTriv))) ∧
      covers [⟨0, 2, ["src"]⟩] (((['a'] : List Char).length : Int) + 1) := by
  have hb : BoundedScanner scTriv :=
    ⟨fun txt fl aa lp st r h => by simp [scTriv] at h,
      fun txt rid er fl aa lp r h => by simp [scTriv] at h⟩
  exact ⟨hb, rfl, tokenize_line_covers_line gTriv scTriv 10 ['a'] none _ _ hb rfl⟩

end Scie
